import Mathlib

/-!
Verification of the AutoIsys host-bootstrap utility (src/main.py).

The development shallowly embeds the Python program:

* YAML/Python values are modelled by the inductive `Val` (strings, booleans,
  integers, sequences, string-keyed mappings as association lists in
  insertion order, matching Python dict iteration order).
* `merge_config` is embedded functionally as `mergeConfig` (the Python
  function mutates `current` in place; `mergeConfig` returns the final value
  of `current`).  A second, heap-based embedding `mergeItems`/`mergeH` in
  namespace `HeapModel` makes the in-place mutation and object aliasing
  explicit in order to settle the frame claim about `default`.
* The orchestration steps (`check_os`, `auto_update_system`, `install_docker`,
  `auto_install_packages`, `enable_services`, `main`) are embedded as pure
  functions from an environment (`Env`: `platform.system()`, `shutil.which`,
  `/etc/os-release`, the loaded configuration) to a trace of observable
  events (`Event.print` for stdout lines, `Event.run` for
  `subprocess.run` invocations).  A Python exception escaping a function is
  modelled as `Except.error ()`; `sys.exit(1)` is modelled by the exit-code
  component returned by `main`.
-/

set_option autoImplicit false

namespace AutoIsys

/-- Python/YAML values: scalars, sequences and string-keyed mappings.
A mapping is an association list in insertion order (Python dicts preserve
insertion order and have unique keys). -/
inductive Val where
  | vstr : String → Val
  | vbool : Bool → Val
  | vint : Int → Val
  | vlist : List Val → Val
  | vdict : List (String × Val) → Val

/-- First-match lookup in an association list (Python `d[k]` / `k in d`). -/
def alookup {κ α : Type} [DecidableEq κ] : List (κ × α) → κ → Option α
  | [], _ => none
  | (k, v) :: rest, key => if k = key then some v else alookup rest key

/-- Replace the value at the first binding of `key` (Python `d[k] = v` for a
key that is already present: the value changes, the position is kept). -/
def setKey {κ α : Type} [DecidableEq κ] : List (κ × α) → κ → α → List (κ × α)
  | [], _, _ => []
  | (k, v) :: rest, key, newV =>
    if k = key then (k, newV) :: rest else (k, v) :: setKey rest key newV

/-- All keys of the association list are distinct (invariant of every Python
dict). -/
def nodupKeys {κ α : Type} [DecidableEq κ] : List (κ × α) → Bool
  | [] => true
  | (k, _) :: rest => !(alookup rest k).isSome && nodupKeys rest

mutual

/-- A mapping is well formed when its keys are distinct at every nesting
level — the invariant every Python dict value satisfies. -/
def wfD : List (String × Val) → Bool
  | [] => true
  | (k, v) :: rest => !(alookup rest k).isSome && wfV v && wfD rest
termination_by d => sizeOf d

/-- A value is well formed when every mapping nested in it is. -/
def wfV : Val → Bool
  | Val.vdict dv => wfD dv
  | _ => true
termination_by v => sizeOf v

end

/-- `DEFAULT_CONFIG` from src/main.py, lines 22-41. -/
def DEFAULT_CONFIG : List (String × Val) :=
  [("app", Val.vdict
      [("name", Val.vstr "AutoIsys"),
       ("version", Val.vstr "0.0.2")]),
   ("system", Val.vdict
      [("auto_update", Val.vbool true),
       ("auto_install", Val.vbool true),
       ("install_docker", Val.vbool true),
       ("enable_services", Val.vlist [Val.vstr "docker"])]),
   ("packages", Val.vlist [Val.vstr "git", Val.vstr "curl", Val.vstr "htop"])]

mutual

/-- `merge_config(default, current)` from src/main.py, lines 45-50, as a
function returning the final value of `current` (the Python function
mutates `current` in place; see `HeapModel` for the mutating view): the
bindings of `default` are processed in order by `mergeStep`. -/
def mergeConfig : List (String × Val) → List (String × Val) → List (String × Val)
  | [], cur => cur
  | (k, v) :: rest, cur => mergeConfig rest (mergeStep k v cur)
termination_by d _ => sizeOf d

/-- One iteration of the `merge_config` loop for the binding `(k, v)` of
`default`: a key absent from `current` is inserted (appended, as Python dict
insertion appends); when both sides hold mappings at the key the merge
recurses; any other existing value is left untouched. -/
def mergeStep (k : String) (v : Val) (cur : List (String × Val)) :
    List (String × Val) :=
  match alookup cur k with
  | none => cur ++ [(k, v)]
  | some cv =>
    match v, cv with
    | Val.vdict dv, Val.vdict cd => setKey cur k (Val.vdict (mergeConfig dv cd))
    | _, _ => cur
termination_by sizeOf v

end

/-! ### Association-list lemmas -/

section AListLemmas

variable {κ α : Type} [DecidableEq κ]

@[simp] theorem alookup_nil (k : κ) : alookup ([] : List (κ × α)) k = none := rfl

theorem alookup_append (l l' : List (κ × α)) (k : κ) :
    alookup (l ++ l') k =
      match alookup l k with
      | some v => some v
      | none => alookup l' k := by
  induction l with
  | nil => simp [alookup]
  | cons p rest ih =>
    obtain ⟨k₁, v₁⟩ := p
    by_cases h : k₁ = k <;> simp [alookup, h, ih]

theorem alookup_setKey_ne (l : List (κ × α)) {key k : κ} (w : α) (h : key ≠ k) :
    alookup (setKey l key w) k = alookup l k := by
  induction l with
  | nil => simp [setKey]
  | cons p rest ih =>
    obtain ⟨k₁, v₁⟩ := p
    by_cases h₁ : k₁ = key
    · subst h₁; simp [setKey, alookup, h]
    · simp [setKey, h₁, alookup, ih]

theorem alookup_setKey_self (l : List (κ × α)) {k : κ} {v : α} (w : α)
    (h : alookup l k = some v) : alookup (setKey l k w) k = some w := by
  induction l with
  | nil => simp [alookup] at h
  | cons p rest ih =>
    obtain ⟨k₁, v₁⟩ := p
    by_cases h₁ : k₁ = k
    · simp [setKey, h₁, alookup]
    · simp [setKey, h₁, alookup] at h ⊢
      exact ih h

theorem setKey_self (l : List (κ × α)) {k : κ} {v : α}
    (h : alookup l k = some v) : setKey l k v = l := by
  induction l with
  | nil => rfl
  | cons p rest ih =>
    obtain ⟨k₁, v₁⟩ := p
    by_cases h₁ : k₁ = k
    · subst h₁
      simp [alookup] at h
      simp [setKey, h]
    · simp [alookup, h₁] at h
      simp [setKey, h₁, ih h]

theorem mem_of_alookup {l : List (κ × α)} {k : κ} {v : α}
    (h : alookup l k = some v) : (k, v) ∈ l := by
  induction l with
  | nil => simp [alookup] at h
  | cons p rest ih =>
    obtain ⟨k₁, v₁⟩ := p
    by_cases h₁ : k₁ = k
    · subst h₁
      simp [alookup] at h
      simp [h]
    · simp [alookup, h₁] at h
      exact List.mem_cons_of_mem _ (ih h)

theorem alookup_isSome_of_mem {l : List (κ × α)} {k : κ} {v : α}
    (h : (k, v) ∈ l) : (alookup l k).isSome = true := by
  induction l with
  | nil => simp at h
  | cons p rest ih =>
    obtain ⟨k₁, v₁⟩ := p
    rcases List.mem_cons.mp h with h | h
    · cases h; simp [alookup]
    · by_cases h₁ : k₁ = k <;> simp [alookup, h₁, ih h]

theorem alookup_of_mem_nodup {l : List (κ × α)} {k : κ} {v : α}
    (hn : nodupKeys l = true) (h : (k, v) ∈ l) : alookup l k = some v := by
  induction l with
  | nil => simp at h
  | cons p rest ih =>
    obtain ⟨k₁, v₁⟩ := p
    simp [nodupKeys] at hn
    rcases List.mem_cons.mp h with h | h
    · cases h; simp [alookup]
    · have hk : k₁ ≠ k := by
        intro hkk
        subst hkk
        exact absurd (alookup_isSome_of_mem h) (by simp [hn.1])
      simp [alookup, hk, ih hn.2 h]

end AListLemmas

/-! ### Size lemmas for the nested recursion -/

theorem sizeOf_val_lt_of_mem {d : List (String × Val)} {k : String} {v : Val}
    (h : (k, v) ∈ d) : sizeOf v < sizeOf d := by
  induction d with
  | nil => simp at h
  | cons p rest ih =>
    obtain ⟨k₁, v₁⟩ := p
    rcases List.mem_cons.mp h with h | h
    · cases h; simp; omega
    · have := ih h
      simp
      omega

theorem sizeOf_dict_lt_of_mem {d : List (String × Val)} {k : String} {dv : List (String × Val)}
    (h : (k, Val.vdict dv) ∈ d) : sizeOf dv < sizeOf d := by
  have := sizeOf_val_lt_of_mem h
  simp at this
  omega

/-! ### Well-formedness lemmas -/

theorem wfD_nodupKeys {d : List (String × Val)} (h : wfD d = true) :
    nodupKeys d = true := by
  induction d with
  | nil => rfl
  | cons p rest ih =>
    obtain ⟨k₁, v₁⟩ := p
    simp [wfD] at h
    simp [nodupKeys, h.1.1, ih h.2]

theorem wfD_mem_dict {d : List (String × Val)} {k : String} {dv : List (String × Val)}
    (h : wfD d = true) (hm : (k, Val.vdict dv) ∈ d) : wfD dv = true := by
  induction d with
  | nil => simp at hm
  | cons p rest ih =>
    obtain ⟨k₁, v₁⟩ := p
    simp [wfD] at h
    rcases List.mem_cons.mp hm with hm | hm
    · cases hm
      have hv := h.1.2
      simpa [wfV] using hv
    · exact ih h.2 hm

/-! ### `mergeStep` case lemmas -/

theorem mergeStep_absent {cur : List (String × Val)} {k : String} (v : Val)
    (hc : alookup cur k = none) : mergeStep k v cur = cur ++ [(k, v)] := by
  rw [mergeStep, hc]

theorem mergeStep_dict_dict {cur : List (String × Val)} {k : String}
    {dv cd : List (String × Val)} (hc : alookup cur k = some (Val.vdict cd)) :
    mergeStep k (Val.vdict dv) cur = setKey cur k (Val.vdict (mergeConfig dv cd)) := by
  rw [mergeStep, hc]

theorem mergeStep_skip_left {cur : List (String × Val)} {k : String} {v cv : Val}
    (hc : alookup cur k = some cv) (hv : ∀ dv, v ≠ Val.vdict dv) :
    mergeStep k v cur = cur := by
  rw [mergeStep, hc]
  rcases v with s | b | n | l | dv
  · rcases cv <;> rfl
  · rcases cv <;> rfl
  · rcases cv <;> rfl
  · rcases cv <;> rfl
  · exact absurd rfl (hv dv)

theorem mergeStep_skip_right {cur : List (String × Val)} {k : String} {v cv : Val}
    (hc : alookup cur k = some cv) (hcv : ∀ cd, cv ≠ Val.vdict cd) :
    mergeStep k v cur = cur := by
  rw [mergeStep, hc]
  rcases cv with s | b | n | l | cd
  · rcases v <;> rfl
  · rcases v <;> rfl
  · rcases v <;> rfl
  · rcases v <;> rfl
  · exact absurd rfl (hcv cd)

theorem alookup_mergeStep_ne {k k' : String} (v : Val) (cur : List (String × Val))
    (h : k ≠ k') : alookup (mergeStep k v cur) k' = alookup cur k' := by
  rw [mergeStep]
  rcases hc : alookup cur k with _ | cv
  · rw [alookup_append]
    rcases h' : alookup cur k' with _ | w <;> simp [alookup, h, h']
  · rcases v with s | b | n | l | dv <;> rcases cv with s' | b' | n' | l' | cd <;>
      first
        | rfl
        | exact alookup_setKey_ne _ _ h

/-! ### Lookup characterization of `mergeConfig` -/

/-- A key that does not occur in `default` is untouched by the merge. -/
theorem alookup_mergeConfig_of_not_key (d : List (String × Val))
    (c : List (String × Val)) (k : String) (h : alookup d k = none) :
    alookup (mergeConfig d c) k = alookup c k := by
  induction d generalizing c with
  | nil => rw [mergeConfig]
  | cons p rest ih =>
    obtain ⟨k₁, v₁⟩ := p
    by_cases hk : k₁ = k
    · subst hk; simp [alookup] at h
    · simp [alookup, hk] at h
      rw [mergeConfig, ih _ h, alookup_mergeStep_ne _ _ hk]

/-- Full description of a lookup in the merged configuration, assuming the
default mapping has distinct keys (every Python dict does). -/
theorem alookup_mergeConfig (d : List (String × Val)) (hn : nodupKeys d = true)
    (c : List (String × Val)) (k : String) :
    alookup (mergeConfig d c) k =
      match alookup d k, alookup c k with
      | none, r => r
      | some v, none => some v
      | some (Val.vdict dv), some (Val.vdict cd) => some (Val.vdict (mergeConfig dv cd))
      | some _, some cv => some cv := by
  induction d generalizing c with
  | nil => rw [mergeConfig]; rfl
  | cons p rest ih =>
    obtain ⟨k₁, v₁⟩ := p
    simp [nodupKeys] at hn
    rw [mergeConfig]
    by_cases hk : k₁ = k
    · subst hk
      rw [alookup_mergeConfig_of_not_key _ _ _ hn.1]
      have hd : alookup ((k₁, v₁) :: rest) k₁ = some v₁ := by simp [alookup]
      rw [hd]
      rcases hc : alookup c k₁ with _ | cv
      · rw [mergeStep_absent _ hc, alookup_append, hc]
        simp [alookup]
      · rcases cv with s | b | n | l | cd
        · rw [mergeStep_skip_right hc (by intro cd h; cases h), hc]
          rcases v₁ <;> rfl
        · rw [mergeStep_skip_right hc (by intro cd h; cases h), hc]
          rcases v₁ <;> rfl
        · rw [mergeStep_skip_right hc (by intro cd h; cases h), hc]
          rcases v₁ <;> rfl
        · rw [mergeStep_skip_right hc (by intro cd h; cases h), hc]
          rcases v₁ <;> rfl
        · rcases v₁ with s | b | n | l | dv
          · rw [mergeStep_skip_left hc (by intro dv h; cases h), hc]
          · rw [mergeStep_skip_left hc (by intro dv h; cases h), hc]
          · rw [mergeStep_skip_left hc (by intro dv h; cases h), hc]
          · rw [mergeStep_skip_left hc (by intro dv h; cases h), hc]
          · rw [mergeStep_dict_dict hc]
            exact alookup_setKey_self c _ hc
    · rw [ih hn.2, alookup_mergeStep_ne _ _ hk]
      have hd : alookup ((k₁, v₁) :: rest) k = alookup rest k := by simp [alookup, hk]
      rw [hd]

/-! ### Absorption, self-merge and idempotence -/

/-- `m` absorbs `d`: every binding of `d` is already present in `m`, and at
keys where both hold mappings, merging changes nothing. -/
def Absorbs (d m : List (String × Val)) : Prop :=
  ∀ k v, (k, v) ∈ d → ∃ w, alookup m k = some w ∧
    ∀ dv cd, v = Val.vdict dv → w = Val.vdict cd → mergeConfig dv cd = cd

theorem mergeStep_of_absorbed {m : List (String × Val)} {k : String} {v w : Val}
    (hw : alookup m k = some w)
    (hprop : ∀ dv cd, v = Val.vdict dv → w = Val.vdict cd → mergeConfig dv cd = cd) :
    mergeStep k v m = m := by
  rcases v with s | b | n | l | dv
  · exact mergeStep_skip_left hw (by intro dv h; cases h)
  · exact mergeStep_skip_left hw (by intro dv h; cases h)
  · exact mergeStep_skip_left hw (by intro dv h; cases h)
  · exact mergeStep_skip_left hw (by intro dv h; cases h)
  · rcases w with s' | b' | n' | l' | cd
    · exact mergeStep_skip_right hw (by intro cd h; cases h)
    · exact mergeStep_skip_right hw (by intro cd h; cases h)
    · exact mergeStep_skip_right hw (by intro cd h; cases h)
    · exact mergeStep_skip_right hw (by intro cd h; cases h)
    · rw [mergeStep_dict_dict hw, hprop dv cd rfl rfl]
      exact setKey_self _ hw

theorem mergeConfig_of_absorbs {d m : List (String × Val)} (h : Absorbs d m) :
    mergeConfig d m = m := by
  induction d with
  | nil => rw [mergeConfig]
  | cons p rest ih =>
    obtain ⟨k₁, v₁⟩ := p
    obtain ⟨w, hw, hprop⟩ := h k₁ v₁ (List.mem_cons_self _ _)
    rw [mergeConfig, mergeStep_of_absorbed hw hprop]
    exact ih (fun k v hm => h k v (List.mem_cons_of_mem _ hm))

/-- Merging a well-formed mapping into itself changes nothing. -/
theorem mergeConfig_self_aux :
    ∀ n d, sizeOf d ≤ n → wfD d = true → mergeConfig d d = d := by
  intro n
  induction n with
  | zero => intro d hd _; rcases d with _ | _ <;> simp at hd
  | succ n ih =>
    intro d hd hwf
    apply mergeConfig_of_absorbs
    intro k v hm
    refine ⟨v, alookup_of_mem_nodup (wfD_nodupKeys hwf) hm, ?_⟩
    rintro dv cd rfl hcd
    cases hcd
    have hsz := sizeOf_dict_lt_of_mem hm
    exact ih dv (by omega) (wfD_mem_dict hwf hm)

/-- Merging a well-formed default into any mapping is idempotent. -/
theorem mergeConfig_idem_aux :
    ∀ n d, sizeOf d ≤ n → wfD d = true →
      ∀ c, mergeConfig d (mergeConfig d c) = mergeConfig d c := by
  intro n
  induction n with
  | zero => intro d hd _; rcases d with _ | _ <;> simp at hd
  | succ n ih =>
    intro d hd hwf c
    apply mergeConfig_of_absorbs
    intro k v hm
    have hn := wfD_nodupKeys hwf
    have hdk : alookup d k = some v := alookup_of_mem_nodup hn hm
    have hL := alookup_mergeConfig d hn c k
    rw [hdk] at hL
    have hszv := sizeOf_val_lt_of_mem hm
    rcases hc : alookup c k with _ | cv
    · rw [hc] at hL
      refine ⟨v, by rcases v <;> exact hL, ?_⟩
      rintro dv cd rfl hcd
      cases hcd
      have hsz := sizeOf_dict_lt_of_mem hm
      exact mergeConfig_self_aux n dv (by omega) (wfD_mem_dict hwf hm)
    · rw [hc] at hL
      rcases cv with s | b | n' | l | cd
      · refine ⟨Val.vstr s, by rcases v <;> exact hL, ?_⟩
        rintro dv cd rfl hcd; cases hcd
      · refine ⟨Val.vbool b, by rcases v <;> exact hL, ?_⟩
        rintro dv cd rfl hcd; cases hcd
      · refine ⟨Val.vint n', by rcases v <;> exact hL, ?_⟩
        rintro dv cd rfl hcd; cases hcd
      · refine ⟨Val.vlist l, by rcases v <;> exact hL, ?_⟩
        rintro dv cd rfl hcd; cases hcd
      · rcases v with s' | b' | n'' | l' | dv
        · exact ⟨Val.vdict cd, hL, by rintro dv' cd' h; cases h⟩
        · exact ⟨Val.vdict cd, hL, by rintro dv' cd' h; cases h⟩
        · exact ⟨Val.vdict cd, hL, by rintro dv' cd' h; cases h⟩
        · exact ⟨Val.vdict cd, hL, by rintro dv' cd' h; cases h⟩
        · refine ⟨Val.vdict (mergeConfig dv cd), hL, ?_⟩
          rintro dv' cd' h hcd
          cases h
          cases hcd
          have hsz := sizeOf_dict_lt_of_mem hm
          exact ih dv (by omega) (wfD_mem_dict hwf hm) cd

/-- A value that is already present in `current` under a non-mapping value
survives the merge unchanged, whatever the default is. -/
theorem alookup_mergeConfig_of_nondict (d : List (String × Val)) :
    ∀ c k v, alookup c k = some v → (∀ dv, v ≠ Val.vdict dv) →
      alookup (mergeConfig d c) k = some v := by
  induction d with
  | nil => intro c k v h _; rw [mergeConfig]; exact h
  | cons p rest ih =>
    obtain ⟨k₁, v₁⟩ := p
    intro c k v h hv
    rw [mergeConfig]
    refine ih _ _ _ ?_ hv
    by_cases hk : k₁ = k
    · subst hk
      rw [mergeStep_skip_right h hv]
      exact h
    · rw [alookup_mergeStep_ne _ _ hk]
      exact h

/-- The default schema has distinct keys at every level. -/
theorem wfD_DEFAULT : wfD DEFAULT_CONFIG = true := by
  simp [wfD, wfV, DEFAULT_CONFIG, alookup]

/-! ### Key paths and shape compatibility -/

mutual

/-- All key paths of a mapping: each key `k`, and `k :: p` for every path `p`
of a mapping nested directly under `k`. -/
def dictPaths : List (String × Val) → List (List String)
  | [] => []
  | (k, v) :: rest =>
    [k] :: (pathsOfVal v).map (fun p => k :: p) ++ dictPaths rest
termination_by d => sizeOf d

/-- Key paths below a value: nonempty only for mappings. -/
def pathsOfVal : Val → List (List String)
  | Val.vdict dv => dictPaths dv
  | _ => []
termination_by v => sizeOf v

end

mutual

/-- `hasPath m p` holds when the key path `p` can be followed through the
mapping `m` (the final key may hold a value of any shape). -/
def hasPath : List (String × Val) → List String → Bool
  | _, [] => true
  | m, k :: p => hasPathAt (alookup m k) p
termination_by _ p => (p.length, 0)

/-- Continuation of `hasPath` after one lookup. -/
def hasPathAt : Option Val → List String → Bool
  | none, _ => false
  | some (Val.vdict md), p => hasPath md p
  | some _, p => p.isEmpty
termination_by _ p => (p.length, 1)

end

mutual

/-- `current` is shape-compatible with the default mapping `d`: wherever
`current` binds a key that `d` binds to a nested mapping, `current` holds a
mapping there as well, recursively. -/
def compat : List (String × Val) → List (String × Val) → Bool
  | [], _ => true
  | (k, v) :: rest, cur => compatAt v (alookup cur k) && compat rest cur
termination_by d _ => sizeOf d

/-- Shape compatibility of one default value with the value (if any) bound
in the current configuration. -/
def compatAt : Val → Option Val → Bool
  | Val.vdict dv, some (Val.vdict cd) => compat dv cd
  | Val.vdict _, some _ => false
  | _, _ => true
termination_by v _ => sizeOf v

end

theorem compat_mem {d c : List (String × Val)} (h : compat d c = true)
    {k : String} {v : Val} (hm : (k, v) ∈ d) :
    compatAt v (alookup c k) = true := by
  induction d with
  | nil => simp at hm
  | cons p rest ih =>
    obtain ⟨k₁, v₁⟩ := p
    rw [compat] at h
    simp at h
    rcases List.mem_cons.mp hm with hm | hm
    · cases hm; exact h.1
    · exact ih h.2 hm

theorem mem_dictPaths {d : List (String × Val)} {p : List String} (hp : p ∈ dictPaths d) :
    ∃ k v, (k, v) ∈ d ∧
      (p = [k] ∨ ∃ dv p', v = Val.vdict dv ∧ p = k :: p' ∧ p' ∈ dictPaths dv) := by
  induction d with
  | nil => rw [dictPaths] at hp; simp at hp
  | cons q rest ih =>
    obtain ⟨k₁, v₁⟩ := q
    rw [dictPaths] at hp
    rcases List.mem_cons.mp hp with hp | hp
    · exact ⟨k₁, v₁, List.mem_cons_self _ _, Or.inl hp⟩
    · rcases List.mem_append.mp hp with hp | hp
      · obtain ⟨p', hp', rfl⟩ := List.mem_map.mp hp
        rcases v₁ with s | b | n | l | dv
        · simp [pathsOfVal] at hp'
        · simp [pathsOfVal] at hp'
        · simp [pathsOfVal] at hp'
        · simp [pathsOfVal] at hp'
        · rw [pathsOfVal] at hp'
          exact ⟨k₁, Val.vdict dv, List.mem_cons_self _ _,
            Or.inr ⟨dv, p', rfl, rfl, hp'⟩⟩
      · obtain ⟨k, v, hm, hc⟩ := ih hp
        exact ⟨k, v, List.mem_cons_of_mem _ hm, hc⟩

theorem hasPath_single {m : List (String × Val)} {k : String}
    (h : ∃ w, alookup m k = some w) : hasPath m [k] = true := by
  obtain ⟨w, hw⟩ := h
  rw [hasPath, hw]
  rcases w <;> simp [hasPathAt, hasPath]

/-- Every key path of a well-formed mapping can be followed through the
mapping itself. -/
theorem hasPath_self_aux :
    ∀ n d, sizeOf d ≤ n → wfD d = true →
      ∀ p, p ∈ dictPaths d → hasPath d p = true := by
  intro n
  induction n with
  | zero => intro d hd _; rcases d with _ | _ <;> simp at hd
  | succ n ih =>
    intro d hd hwf p hp
    obtain ⟨k, v, hm, hc⟩ := mem_dictPaths hp
    have hdk : alookup d k = some v := alookup_of_mem_nodup (wfD_nodupKeys hwf) hm
    rcases hc with rfl | ⟨dv, p', rfl, rfl, hp'⟩
    · exact hasPath_single ⟨v, hdk⟩
    · rw [hasPath, hdk, hasPathAt]
      have hsz := sizeOf_dict_lt_of_mem hm
      exact ih dv (by omega) (wfD_mem_dict hwf hm) p' hp'

/-- Merge completeness holds for shape-compatible configurations: every key
path of a well-formed default survives into the merged mapping. -/
theorem mergePaths_aux :
    ∀ n d, sizeOf d ≤ n → wfD d = true →
      ∀ c, compat d c = true →
        ∀ p, p ∈ dictPaths d → hasPath (mergeConfig d c) p = true := by
  intro n
  induction n with
  | zero => intro d hd _; rcases d with _ | _ <;> simp at hd
  | succ n ih =>
    intro d hd hwf c hcompat p hp
    obtain ⟨k, v, hm, hc⟩ := mem_dictPaths hp
    have hn := wfD_nodupKeys hwf
    have hdk : alookup d k = some v := alookup_of_mem_nodup hn hm
    have hL := alookup_mergeConfig d hn c k
    rw [hdk] at hL
    rcases hc with rfl | ⟨dv, p', rfl, rfl, hp'⟩
    · apply hasPath_single
      rcases hcv : alookup c k with _ | cv <;> rw [hcv] at hL
      · rcases v <;> exact ⟨_, hL⟩
      · rcases cv <;> rcases v <;> exact ⟨_, hL⟩
    · have hcompatAt := compat_mem hcompat hm
      have hsz := sizeOf_dict_lt_of_mem hm
      rw [hasPath]
      rcases hcv : alookup c k with _ | cv <;> rw [hcv] at hL
      · rw [hL, hasPathAt]
        exact hasPath_self_aux n dv (by omega) (wfD_mem_dict hwf hm) p' hp'
      · rw [hcv] at hcompatAt
        rcases cv with s | b | n' | l | cd
        · simp [compatAt] at hcompatAt
        · simp [compatAt] at hcompatAt
        · simp [compatAt] at hcompatAt
        · simp [compatAt] at hcompatAt
        · rw [compatAt] at hcompatAt
          rw [hL, hasPathAt]
          exact ih dv (by omega) (wfD_mem_dict hwf hm) cd hcompatAt p' hp'

/-! ### Claims C1, C2, C3 -/

/-- C1 (counterexample): merge completeness fails for an arbitrary
configuration mapping.  If `current` binds `"system"` to the non-mapping
value `True`, `merge_config` keeps that value (the `elif` of the source
requires both sides to be dicts), so the default key path
`system.auto_update` is absent from the merged result. -/
theorem merge_completeness_cex :
    ["system", "auto_update"] ∈ dictPaths DEFAULT_CONFIG ∧
    hasPath (mergeConfig DEFAULT_CONFIG [("system", Val.vbool true)])
      ["system", "auto_update"] = false := by
  constructor
  · simp [dictPaths, pathsOfVal, DEFAULT_CONFIG]
  · simp [mergeConfig, mergeStep, DEFAULT_CONFIG, alookup, setKey, hasPath, hasPathAt]

/-- C1 (amended): for every configuration mapping `current` that is
shape-compatible with the default schema (wherever `current` binds a key
that the default binds to a nested mapping, `current` also holds a mapping
there, recursively), every key path present in the default schema is
present in `merge_config(DEFAULT_CONFIG, current)`. -/
theorem merge_completeness_of_compat (current : List (String × Val))
    (hc : compat DEFAULT_CONFIG current = true) :
    ∀ p, p ∈ dictPaths DEFAULT_CONFIG →
      hasPath (mergeConfig DEFAULT_CONFIG current) p = true :=
  mergePaths_aux (sizeOf DEFAULT_CONFIG) DEFAULT_CONFIG le_rfl wfD_DEFAULT
    current hc

/-- Witness for `merge_completeness_of_compat` at the empty configuration
and the path `system.auto_update`. -/
theorem merge_completeness_of_compat_witness :
    hasPath (mergeConfig DEFAULT_CONFIG []) ["system", "auto_update"] = true :=
  merge_completeness_of_compat []
    (by simp [compat, compatAt, DEFAULT_CONFIG, alookup])
    ["system", "auto_update"]
    (by simp [dictPaths, pathsOfVal, DEFAULT_CONFIG])

/-- C2: for every configuration mapping `current` and every key present in
`current` with a non-mapping value, merging the default schema into
`current` retains that exact value at that key — the default never
overwrites it. -/
theorem merge_nondestructive (current : List (String × Val)) (k : String)
    (v : Val) (hcur : alookup current k = some v)
    (hv : ∀ dv, v ≠ Val.vdict dv) :
    alookup (mergeConfig DEFAULT_CONFIG current) k = some v :=
  alookup_mergeConfig_of_nondict DEFAULT_CONFIG current k v hcur hv

/-- Witness for `merge_nondestructive`: a user-set scalar at `"packages"`
survives the merge. -/
theorem merge_nondestructive_witness :
    alookup (mergeConfig DEFAULT_CONFIG [("packages", Val.vstr "none")])
      "packages" = some (Val.vstr "none") :=
  merge_nondestructive [("packages", Val.vstr "none")] "packages"
    (Val.vstr "none") rfl (by intro dv h; cases h)

/-- C3: merging the default schema into any configuration mapping is
idempotent: `merge(merge(c)) = merge(c)` where
`merge c = merge_config(DEFAULT_CONFIG, c)`. -/
theorem merge_idem_default (c : List (String × Val)) :
    mergeConfig DEFAULT_CONFIG (mergeConfig DEFAULT_CONFIG c) =
      mergeConfig DEFAULT_CONFIG c :=
  mergeConfig_idem_aux (sizeOf DEFAULT_CONFIG) DEFAULT_CONFIG le_rfl
    wfD_DEFAULT c

/-! ### Environment, events and orchestration steps

The remaining functions of src/main.py interact with the system.  They are
embedded as pure functions over an `Env` describing the outside world, and
they return the list of observable `Event`s they produce — one
`Event.print` per stdout line (`print` joins its arguments with spaces) and
one `Event.run` per `subprocess.run` invocation.  A Python exception
escaping a function is `Except.error ()`. -/

/-- Observable actions of the program. -/
inductive Event where
  | print : String → Event
  | run : List String → Event
deriving DecidableEq

/-- The outside world as seen by src/main.py: `platform.system()`,
executable presence on the path (`shutil.which(x)` is not `None`), the
lines of `/etc/os-release` (`none` when opening raises
`FileNotFoundError`), `platform.mac_ver()[0]`, and the loaded
configuration mapping (the module-level `config`). -/
structure Env where
  system : String
  which : String → Bool
  osRelease : Option (List String)
  macVer : String
  config : List (String × Val)

/-- `str(x)` as used by `print` on the result of `get_linux_distro`:
Python `None` prints as `"None"`. -/
def pyStr : Option String → String
  | none => "None"
  | some s => s

/-- Python truthiness of a value, as used by `if not x:`. -/
def pyTruthy : Val → Bool
  | Val.vstr s => !(s = "")
  | Val.vbool b => b
  | Val.vint n => !(n = 0)
  | Val.vlist l => !l.isEmpty
  | Val.vdict d => !d.isEmpty

/-- Python `x.get(k, dflt)`: a lookup with default on a dict, and an
`AttributeError` on any non-dict receiver. -/
def pyGet (v : Val) (k : String) (dflt : Val) : Except Unit Val :=
  match v with
  | Val.vdict d => Except.ok ((alookup d k).getD dflt)
  | _ => Except.error ()

/-- `config.get("system", {}).get(flag, False)` from the guards of
`auto_update_system`, `install_docker` and `auto_install_packages`. -/
def systemFlag (cfg : List (String × Val)) (flag : String) : Except Unit Val :=
  match pyGet (Val.vdict cfg) "system" (Val.vdict []) with
  | Except.error u => Except.error u
  | Except.ok s => pyGet s flag (Val.vbool false)

/-- Elements of a Python list iterated as strings; a non-string element
makes `shutil.which` raise `TypeError` in the source (the model reports the
error up front rather than mid-loop; no theorem below exercises such an
input). -/
def strsOf : List Val → Except Unit (List String)
  | [] => Except.ok []
  | Val.vstr s :: rest =>
    match strsOf rest with
    | Except.ok l => Except.ok (s :: l)
    | Except.error u => Except.error u
  | _ :: _ => Except.error ()

/-- `for x in v` with each `x` used as a string: a string iterates its
characters, a list its elements, a dict its keys; numbers and booleans are
not iterable (`TypeError`). -/
def toStrList : Val → Except Unit (List String)
  | Val.vstr s => Except.ok (s.toList.map (fun c => String.mk [c]))
  | Val.vlist l => strsOf l
  | Val.vdict d => Except.ok (d.map Prod.fst)
  | _ => Except.error ()

/-- `" ".join(cmd)`. -/
def joinSpace (cmd : List String) : String := String.intercalate " " cmd

/-! ### OS detection (src/main.py lines 75-94)

The Python string methods used by `get_linux_distro` are modelled at the
character-list level. -/

/-- Python `s.startswith(pre)`. -/
def pyStartsWith (s pre : String) : Bool :=
  pre.toList.isPrefixOf s.toList

/-- ASCII whitespace, as stripped by Python `str.strip()` (the model covers
the ASCII whitespace characters; the configuration files at hand contain no
exotic Unicode spaces). -/
def isPySpace (c : Char) : Bool :=
  c = ' ' || c = '\t' || c = '\n' || c = '\r' || c = '\x0b' || c = '\x0c'

/-- Python `s.strip()`: remove leading and trailing whitespace. -/
def pyTrim (s : String) : String :=
  String.mk (((s.toList.dropWhile isPySpace).reverse.dropWhile
    isPySpace).reverse)

/-- Python `s.strip('"')`: remove every leading and trailing double-quote
character. -/
def stripQuotes (s : String) : String :=
  String.mk (((s.toList.dropWhile (fun c => c = '"')).reverse.dropWhile
    (fun c => c = '"')).reverse)

/-- Python `s.split("=", 1)`: split at the first `=` only; without an `=`
the result is the single-element list `[s]`. -/
def splitEqOnce (s : String) : List String :=
  match s.toList.dropWhile (fun c => !(c = '=')) with
  | [] => [s]
  | _ :: after =>
    [String.mk (s.toList.takeWhile (fun c => !(c = '='))), String.mk after]

/-- `line.split("=", 1)[1].strip().strip('"')`: `none` models the
`IndexError` raised when the line has no `=`. -/
def parseDistroLine (line : String) : Option String :=
  match splitEqOnce line with
  | [_, v] => some (stripQuotes (pyTrim v))
  | _ => none

/-- `get_linux_distro()` from src/main.py lines 75-82, as a function of the
lines of `/etc/os-release` (`none` = the file is missing, raising
`FileNotFoundError`).  The result `Except.ok none` is Python returning
`None`: the loop found no line starting with `PRETTY_NAME` and the function
falls off its end.  `Except.error` is the uncaught `IndexError` for a
`PRETTY_NAME` line without `=`. -/
def get_linux_distro : Option (List String) → Except Unit (Option String)
  | none => Except.ok (some "Unknown Linux")
  | some lines =>
    match lines.find? (fun l => pyStartsWith l "PRETTY_NAME") with
    | none => Except.ok none
    | some line =>
      match parseDistroLine line with
      | some v => Except.ok (some v)
      | none => Except.error ()

/-- `check_os()` from src/main.py lines 85-94.  The boolean is true when
the function calls `sys.exit(1)`. -/
def check_os (e : Env) : Except Unit (List Event × Bool) :=
  if e.system = "Linux" then
    match get_linux_distro e.osRelease with
    | Except.error u => Except.error u
    | Except.ok d => Except.ok ([Event.print ("OS: " ++ pyStr d)], false)
  else if e.system = "Darwin" then
    Except.ok ([Event.print ("OS: macOS " ++ e.macVer)], false)
  else
    Except.ok ([Event.print "Unsupported OS"], true)

/-! ### Package-manager detection (src/main.py lines 98-127) -/

/-- The `managers` dict of `detect_package_manager`, in insertion order
(Python dicts iterate in insertion order): candidate executable paired with
the manager identity it stands for. -/
def managersList : List (String × String) :=
  [("pacman", "pacman"), ("apt", "apt"), ("dnf", "dnf"), ("yum", "yum"),
   ("zypper", "zypper"), ("apk", "apk"), ("emerge", "emerge"),
   ("xbps-install", "xbps"), ("nix-env", "nix")]

/-- The Linux probe loop: first candidate present on the path wins. -/
def detectLinuxPM (which : String → Bool) : List (String × String) → String
  | [] => "unknown-linux"
  | (cmd, name) :: rest => if which cmd then name else detectLinuxPM which rest

/-- `detect_package_manager()` from src/main.py lines 98-127. -/
def detect_package_manager (e : Env) : String :=
  if e.system = "Linux" then
    detectLinuxPM e.which managersList
  else if e.system = "Darwin" then
    if e.which "brew" then "brew"
    else if e.which "port" then "macports"
    else "unknown-macos"
  else "unsupported-os"

/-! ### Orchestration steps (src/main.py lines 131-238) -/

/-- The `commands` table of `auto_update_system` (lines 138-145). -/
def updateCommands : List (String × List String) :=
  [("pacman", ["sudo", "pacman", "-Syu"]),
   ("apt", ["sudo", "apt", "update"]),
   ("dnf", ["sudo", "dnf", "upgrade", "-y"]),
   ("yum", ["sudo", "yum", "update", "-y"]),
   ("apk", ["sudo", "apk", "upgrade"]),
   ("brew", ["brew", "update"])]

/-- `auto_update_system()` from src/main.py lines 131-153. -/
def auto_update_system (e : Env) : Except Unit (List Event) :=
  match systemFlag e.config "auto_update" with
  | Except.error u => Except.error u
  | Except.ok flag =>
    if !(pyTruthy flag) then Except.ok [Event.print "[INFO] Auto update disabled"]
    else
      let pm := detect_package_manager e
      match alookup updateCommands pm with
      | none => Except.ok [Event.print ("[WARN] Auto update not supported for: " ++ pm)]
      | some cmd => Except.ok [Event.print ("[RUN] " ++ joinSpace cmd), Event.run cmd]

/-- The `docker_packages` table of `install_docker` (lines 164-171). -/
def docker_packages : List (String × List String) :=
  [("pacman", ["sudo", "pacman", "-S", "--noconfirm", "docker"]),
   ("apt", ["sudo", "apt", "install", "-y", "docker.io"]),
   ("dnf", ["sudo", "dnf", "install", "-y", "docker"]),
   ("yum", ["sudo", "yum", "install", "-y", "docker"]),
   ("apk", ["sudo", "apk", "add", "docker"]),
   ("brew", ["brew", "install", "--cask", "docker"])]

/-- `install_docker()` from src/main.py lines 157-178. -/
def install_docker (e : Env) : Except Unit (List Event) :=
  match systemFlag e.config "install_docker" with
  | Except.error u => Except.error u
  | Except.ok flag =>
    if !(pyTruthy flag) then Except.ok [Event.print "[INFO] Docker install disabled"]
    else
      let pm := detect_package_manager e
      match alookup docker_packages pm with
      | none => Except.ok [Event.print ("[WARN] Docker install not supported for: " ++ pm)]
      | some cmd => Except.ok [Event.print "[INFO] Installing Docker", Event.run cmd]

/-- The `INSTALL_COMMANDS` table of `auto_install_packages`
(lines 216-223): per-manager command builders. -/
def INSTALL_COMMANDS : List (String × (String → List String)) :=
  [("pacman", fun p => ["sudo", "pacman", "-S", "--noconfirm", p]),
   ("apt", fun p => ["sudo", "apt", "install", "-y", p]),
   ("dnf", fun p => ["sudo", "dnf", "install", "-y", p]),
   ("yum", fun p => ["sudo", "yum", "install", "-y", p]),
   ("apk", fun p => ["sudo", "apk", "add", p]),
   ("brew", fun p => ["brew", "install", p])]

/-- One iteration of the install loop (lines 231-238): a package already on
the path (`is_installed`, line 199) is reported and skipped with no process
invocation; otherwise the install command is printed and run. -/
def installStep (e : Env) (mk : String → List String) (pkg : String) :
    List Event :=
  if e.which pkg then [Event.print ("[OK] " ++ pkg ++ " already installed")]
  else [Event.print ("[INSTALL] " ++ joinSpace (mk pkg)), Event.run (mk pkg)]

/-- `auto_install_packages()` from src/main.py lines 203-238. -/
def auto_install_packages (e : Env) : Except Unit (List Event) :=
  match systemFlag e.config "auto_install" with
  | Except.error u => Except.error u
  | Except.ok flag =>
    if !(pyTruthy flag) then Except.ok [Event.print "[INFO] Auto install disabled"]
    else
      let packagesVal := (alookup e.config "packages").getD (Val.vlist [])
      if !(pyTruthy packagesVal) then Except.ok [Event.print "[INFO] No packages to install"]
      else
        let pm := detect_package_manager e
        match alookup INSTALL_COMMANDS pm with
        | none => Except.ok [Event.print ("[WARN] Package manager not supported: " ++ pm)]
        | some mk =>
          match toStrList packagesVal with
          | Except.error u => Except.error u
          | Except.ok pkgs =>
            Except.ok (Event.print ("[INFO] Installing packages using: " ++ pm)
              :: pkgs.flatMap (installStep e mk))

/-- `enable_services()` from src/main.py lines 182-195. -/
def enable_services (e : Env) : Except Unit (List Event) :=
  match pyGet (Val.vdict e.config) "system" (Val.vdict []) with
  | Except.error u => Except.error u
  | Except.ok sv =>
    match pyGet sv "enable_services" (Val.vlist []) with
    | Except.error u => Except.error u
    | Except.ok services =>
      if !(pyTruthy services) then Except.ok [Event.print "[INFO] No services to enable"]
      else if !(e.which "systemctl") then Except.ok [Event.print "[WARN] systemd not detected"]
      else
        match toStrList services with
        | Except.error u => Except.error u
        | Except.ok names =>
          Except.ok (names.flatMap (fun s =>
            [Event.print ("[SERVICE] Enabling " ++ s),
             Event.run ["sudo", "systemctl", "enable", "--now", s]]))

/-- The 46-character separator line of the banner. -/
def bannerLine : String := String.mk (List.replicate 46 '=')

/-- The three banner lines of `logo()` (src/main.py lines 10-13). -/
def logoEvents : List Event :=
  [Event.print bannerLine,
   Event.print "              AutoIsys Utility",
   Event.print bannerLine]

/-- `main()` from src/main.py lines 242-248, paired with the process exit
code: 1 when `check_os` calls `sys.exit(1)`, 0 on normal completion. -/
def main (e : Env) : Except Unit (List Event × Nat) :=
  match check_os e with
  | Except.error u => Except.error u
  | Except.ok (osEv, exited) =>
    if exited then Except.ok (logoEvents ++ osEv, 1)
    else
      match auto_update_system e with
      | Except.error u => Except.error u
      | Except.ok up =>
        match install_docker e with
        | Except.error u => Except.error u
        | Except.ok dk =>
          match auto_install_packages e with
          | Except.error u => Except.error u
          | Except.ok pk =>
            match enable_services e with
            | Except.error u => Except.error u
            | Except.ok sv =>
              Except.ok (logoEvents ++ osEv ++ up ++ dk ++ pk ++ sv, 0)

/-- No `subprocess.run` invocation occurs in the trace. -/
def noRuns : List Event → Bool
  | [] => true
  | Event.run _ :: _ => false
  | Event.print _ :: rest => noRuns rest

/-! ### Claims C4-C8 and C10 -/

/-- C4: whenever `platform.system()` is neither `"Linux"` nor `"Darwin"`,
`main` terminates with exit code 1 immediately after the banner: the whole
trace is the three banner lines plus the `Unsupported OS` line, no
subprocess is ever invoked, and none of the later orchestration steps
contributes any event. -/
theorem unsupported_os_aborts (e : Env) (h1 : e.system ≠ "Linux")
    (h2 : e.system ≠ "Darwin") :
    main e = Except.ok (logoEvents ++ [Event.print "Unsupported OS"], 1) ∧
    noRuns (logoEvents ++ [Event.print "Unsupported OS"]) = true := by
  constructor
  · simp [main, check_os, h1, h2]
  · rfl

/-- Witness for `unsupported_os_aborts` on a Windows environment. -/
theorem unsupported_os_aborts_witness :
    main ⟨"Windows", fun _ => false, none, "", []⟩ =
      Except.ok (logoEvents ++ [Event.print "Unsupported OS"], 1) :=
  (unsupported_os_aborts ⟨"Windows", fun _ => false, none, "", []⟩
    (by decide) (by decide)).1

/-- C5: for each of the three table-driven actions, a package-manager
identity absent from the action's dispatch table makes the step print a
warning and return: the step's whole trace is that single warning line — no
subprocess is invoked, no package is attempted, and no exception is raised
(the result is `Except.ok`). -/
theorem unsupported_manager_safe (e : Env) :
    (∀ fv, systemFlag e.config "auto_update" = Except.ok fv →
      pyTruthy fv = true →
      alookup updateCommands (detect_package_manager e) = none →
      auto_update_system e = Except.ok
        [Event.print ("[WARN] Auto update not supported for: " ++
          detect_package_manager e)]) ∧
    (∀ fv, systemFlag e.config "install_docker" = Except.ok fv →
      pyTruthy fv = true →
      alookup docker_packages (detect_package_manager e) = none →
      install_docker e = Except.ok
        [Event.print ("[WARN] Docker install not supported for: " ++
          detect_package_manager e)]) ∧
    (∀ fv, systemFlag e.config "auto_install" = Except.ok fv →
      pyTruthy fv = true →
      pyTruthy ((alookup e.config "packages").getD (Val.vlist [])) = true →
      alookup INSTALL_COMMANDS (detect_package_manager e) = none →
      auto_install_packages e = Except.ok
        [Event.print ("[WARN] Package manager not supported: " ++
          detect_package_manager e)]) := by
  refine ⟨?_, ?_, ?_⟩
  · intro fv hf ht hl
    rw [auto_update_system, hf]
    simp [ht, hl]
  · intro fv hf ht hl
    rw [install_docker, hf]
    simp [ht, hl]
  · intro fv hf ht hp hl
    rw [auto_install_packages, hf]
    simp [ht, hp, hl]

/-- Witness for `unsupported_manager_safe`: an unknown Linux manager makes
the update step warn and stop. -/
theorem unsupported_manager_safe_witness :
    auto_update_system ⟨"Linux", fun _ => false, none, "",
        [("system", Val.vdict [("auto_update", Val.vbool true)])]⟩ =
      Except.ok [Event.print ("[WARN] Auto update not supported for: " ++
        detect_package_manager ⟨"Linux", fun _ => false, none, "",
          [("system", Val.vdict [("auto_update", Val.vbool true)])]⟩)] :=
  (unsupported_manager_safe _).1 (Val.vbool true) rfl rfl rfl

/-- The probe loop returns `unknown-linux` when no candidate is present. -/
theorem detectLinuxPM_none (w : String → Bool) :
    ∀ l : List (String × String), (∀ p ∈ l, w p.1 = false) →
      detectLinuxPM w l = "unknown-linux" := by
  intro l
  induction l with
  | nil => intro _; rfl
  | cons p rest ih =>
    obtain ⟨cmd, name⟩ := p
    intro h
    rw [detectLinuxPM]
    simp [h (cmd, name) (List.mem_cons_self _ _)]
    exact ih (fun q hq => h q (List.mem_cons_of_mem _ hq))

/-- The probe loop returns the identity of the first present candidate. -/
theorem detectLinuxPM_first (w : String → Bool) :
    ∀ (l : List (String × String)) (i : Nat) (h : i < l.length),
      w ((l.get ⟨i, h⟩).1) = true →
      (∀ j (hj : j < i), w ((l.get ⟨j, Nat.lt_trans hj h⟩).1) = false) →
      detectLinuxPM w l = (l.get ⟨i, h⟩).2 := by
  intro l
  induction l with
  | nil => intro i h; simp at h
  | cons p rest ih =>
    obtain ⟨cmd, name⟩ := p
    intro i h hw hprev
    cases i with
    | zero =>
      rw [detectLinuxPM]
      simp at hw
      simp [hw]
    | succ i' =>
      have h0 : w cmd = false := hprev 0 (Nat.succ_pos i')
      rw [detectLinuxPM]
      simp [h0]
      have h' : i' < rest.length := Nat.lt_of_succ_lt_succ h
      have := ih i' h' (by simpa using hw)
        (fun j hj => by simpa using hprev (j + 1) (Nat.succ_lt_succ hj))
      simpa using this

/-- C6: on a Linux-family system the prober tests the fixed candidate list
in declared order: it returns `unknown-linux` when none is present, returns
the identity of the first present candidate in general, and in particular
returns `pacman` when both `pacman` and `apt` are present. -/
theorem manager_priority (e : Env) (hlin : e.system = "Linux") :
    ((∀ p ∈ managersList, e.which p.1 = false) →
      detect_package_manager e = "unknown-linux") ∧
    (∀ i (h : i < managersList.length),
      e.which ((managersList.get ⟨i, h⟩).1) = true →
      (∀ j (hj : j < i), e.which ((managersList.get ⟨j, Nat.lt_trans hj h⟩).1) = false) →
      detect_package_manager e = (managersList.get ⟨i, h⟩).2) ∧
    (e.which "pacman" = true → e.which "apt" = true →
      detect_package_manager e = "pacman") := by
  have hd : detect_package_manager e = detectLinuxPM e.which managersList := by
    simp [detect_package_manager, hlin]
  refine ⟨?_, ?_, ?_⟩
  · intro h
    rw [hd]
    exact detectLinuxPM_none e.which managersList h
  · intro i h hw hprev
    rw [hd]
    exact detectLinuxPM_first e.which managersList i h hw hprev
  · intro hpac _
    rw [hd, managersList, detectLinuxPM]
    simp [hpac]

/-- Witness for `manager_priority`: with both `pacman` and `apt` present
the prober picks `pacman`. -/
theorem manager_priority_witness :
    detect_package_manager
      ⟨"Linux", fun s => s == "pacman" || s == "apt", none, "", []⟩ = "pacman" :=
  (manager_priority ⟨"Linux", fun s => s == "pacman" || s == "apt", none, "", []⟩
    rfl).2.2 rfl rfl

/-- C7: during the package-install step the packages are processed in
configured order (`flatMap` over the configured list); a package already
present on the path contributes exactly the `[OK] ... already installed`
line — that line occurs in the step's trace — and its iteration performs no
subprocess invocation. -/
theorem install_skip (e : Env) (fv : Val)
    (hf : systemFlag e.config "auto_install" = Except.ok fv)
    (ht : pyTruthy fv = true)
    (hp : pyTruthy ((alookup e.config "packages").getD (Val.vlist [])) = true)
    (mk : String → List String)
    (hm : alookup INSTALL_COMMANDS (detect_package_manager e) = some mk)
    (pkgs : List String)
    (hl : toStrList ((alookup e.config "packages").getD (Val.vlist [])) =
      Except.ok pkgs) :
    auto_install_packages e = Except.ok
      (Event.print ("[INFO] Installing packages using: " ++
        detect_package_manager e) :: pkgs.flatMap (installStep e mk)) ∧
    (∀ pkg, pkg ∈ pkgs → e.which pkg = true →
      installStep e mk pkg =
        [Event.print ("[OK] " ++ pkg ++ " already installed")]) ∧
    (∀ pkg, pkg ∈ pkgs → e.which pkg = true →
      Event.print ("[OK] " ++ pkg ++ " already installed") ∈
        pkgs.flatMap (installStep e mk)) ∧
    (∀ pkg, e.which pkg = true → noRuns (installStep e mk pkg) = true) := by
  refine ⟨?_, ?_, ?_, ?_⟩
  · rw [auto_install_packages, hf]
    simp [ht, hp, hm, hl]
  · intro pkg _ hw
    simp [installStep, hw]
  · intro pkg hmem hw
    exact List.mem_flatMap.mpr ⟨pkg, hmem, by simp [installStep, hw]⟩
  · intro pkg hw
    simp [installStep, hw, noRuns]

/-- Witness for `install_skip`: `git` present on the path is reported and
skipped. -/
theorem install_skip_witness :
    installStep ⟨"Linux", fun s => s == "git" || s == "apt", none, "",
        [("system", Val.vdict [("auto_install", Val.vbool true)]),
         ("packages", Val.vlist [Val.vstr "git", Val.vstr "curl"])]⟩
      (fun p => ["sudo", "apt", "install", "-y", p]) "git" =
      [Event.print ("[OK] " ++ "git" ++ " already installed")] :=
  ((install_skip ⟨"Linux", fun s => s == "git" || s == "apt", none, "",
      [("system", Val.vdict [("auto_install", Val.vbool true)]),
       ("packages", Val.vlist [Val.vstr "git", Val.vstr "curl"])]⟩
    (Val.vbool true) rfl rfl rfl _ rfl ["git", "curl"] rfl).2.1)
    "git" (by simp) rfl

/-- C8 (counterexample): with an existing release file whose lines lack a
`PRETTY_NAME` field, `get_linux_distro` returns Python `None`, not
`"Unknown Linux"` — the fallback only fires on `FileNotFoundError`. -/
theorem distro_name_cex :
    (∀ l, l ∈ ["ID=debian"] → pyStartsWith l "PRETTY_NAME" = false) ∧
    get_linux_distro (some ["ID=debian"]) = Except.ok none ∧
    (Except.ok (none : Option String) : Except Unit (Option String)) ≠
      Except.ok (some "Unknown Linux") := by
  refine ⟨?_, rfl, by simp⟩
  intro l hl
  simp at hl
  subst hl
  rfl

/-- C8 (amended): on a Linux-family system the display name is the parsed
value of the first `PRETTY_NAME` line of the release file; it is
`"Unknown Linux"` when the release file is missing; and when the file
exists but no line starts with `PRETTY_NAME` the function returns Python
`None` (so `check_os` prints `OS: None`). -/
theorem distro_name_fallback (lines : List String) :
    get_linux_distro none = Except.ok (some "Unknown Linux") ∧
    ((∀ l, l ∈ lines → pyStartsWith l "PRETTY_NAME" = false) →
      get_linux_distro (some lines) = Except.ok none) ∧
    (∀ line v, lines.find? (fun l => pyStartsWith l "PRETTY_NAME") = some line →
      parseDistroLine line = some v →
      get_linux_distro (some lines) = Except.ok (some v)) := by
  refine ⟨rfl, ?_, ?_⟩
  · intro h
    rw [get_linux_distro]
    have hf : lines.find? (fun l => pyStartsWith l "PRETTY_NAME") = none := by
      apply List.find?_eq_none.mpr
      intro x hx
      simp [h x hx]
    rw [hf]
  · intro line v hf hp
    rw [get_linux_distro, hf]
    simp [hp]

/-- Witness for `distro_name_fallback`: a realistic `/etc/os-release`. -/
theorem distro_name_fallback_witness :
    get_linux_distro (some ["NAME=U", "PRETTY_NAME=\"Ubuntu 22.04.3 LTS\""]) =
      Except.ok (some "Ubuntu 22.04.3 LTS") :=
  (distro_name_fallback ["NAME=U", "PRETTY_NAME=\"Ubuntu 22.04.3 LTS\""]).2.2
    "PRETTY_NAME=\"Ubuntu 22.04.3 LTS\"" "Ubuntu 22.04.3 LTS" rfl rfl

/-- A configuration without the `system` mapping, or whose `system` mapping
lacks the given flag, yields `False` from the flag guard. -/
theorem systemFlag_missing (cfg : List (String × Val)) (flag : String)
    (h : alookup cfg "system" = none ∨
      ∃ sd, alookup cfg "system" = some (Val.vdict sd) ∧ alookup sd flag = none) :
    systemFlag cfg flag = Except.ok (Val.vbool false) := by
  rcases h with h | ⟨sd, hsd, hflag⟩
  · rw [systemFlag, pyGet, h]
    simp [pyGet]
  · rw [systemFlag, pyGet, hsd]
    simp [pyGet, hflag]

/-- C10: when the `system` mapping is absent, or present as a mapping that
lacks the respective flag, each of the three guarded steps treats the
feature as disabled: it prints its informational line, performs no
subprocess invocation, and raises no exception. -/
theorem missing_flags_disabled (e : Env) :
    ((alookup e.config "system" = none ∨
      ∃ sd, alookup e.config "system" = some (Val.vdict sd) ∧
        alookup sd "auto_update" = none) →
      auto_update_system e = Except.ok [Event.print "[INFO] Auto update disabled"]) ∧
    ((alookup e.config "system" = none ∨
      ∃ sd, alookup e.config "system" = some (Val.vdict sd) ∧
        alookup sd "install_docker" = none) →
      install_docker e = Except.ok [Event.print "[INFO] Docker install disabled"]) ∧
    ((alookup e.config "system" = none ∨
      ∃ sd, alookup e.config "system" = some (Val.vdict sd) ∧
        alookup sd "auto_install" = none) →
      auto_install_packages e = Except.ok [Event.print "[INFO] Auto install disabled"]) := by
  refine ⟨?_, ?_, ?_⟩
  · intro h
    rw [auto_update_system, systemFlag_missing e.config _ h]
    rfl
  · intro h
    rw [install_docker, systemFlag_missing e.config _ h]
    rfl
  · intro h
    rw [auto_install_packages, systemFlag_missing e.config _ h]
    rfl

/-- Witness for `missing_flags_disabled` on the empty configuration. -/
theorem missing_flags_disabled_witness :
    auto_update_system ⟨"Linux", fun _ => false, none, "", []⟩ =
      Except.ok [Event.print "[INFO] Auto update disabled"] :=
  (missing_flags_disabled ⟨"Linux", fun _ => false, none, "", []⟩).1 (Or.inl rfl)

/-! ### Heap model of `merge_config` (claim C9)

`merge_config` mutates `current` in place, and `current[key] = value`
stores a *reference*: Python dicts are heap objects.  To settle the frame
claim about `default` the function is re-embedded as a state transformer on
an explicit heap of dict objects.  Addresses are `Nat`; a dict object is an
association list of bindings whose values are either immediate values or
references to other dict objects.  Python lists are mutable objects too,
but `merge_config` neither reads into nor mutates them, so they are
modelled as immediate values.  The `fuel` parameter bounds the number of
loop iterations and recursive calls: `none` models a run that has not
completed within the bound (Python diverges or exhausts its recursion limit
on cyclic inputs, which YAML anchors can build); every theorem below is
conditioned on a completed run `= some h'`. -/

namespace HeapModel

/-- A value stored in a dict binding: an immediate (non-dict) Python value,
or a reference to a dict object on the heap. -/
inductive HVal where
  | hstr : String → HVal
  | hbool : Bool → HVal
  | hint : Int → HVal
  | hlist : List String → HVal
  | ref : Nat → HVal
deriving DecidableEq

/-- The heap: dict objects addressed by `Nat`. -/
abbrev Heap := List (Nat × List (String × HVal))

/-- `isinstance(value, dict) and isinstance(current[key], dict)`: the pair
of dict addresses when both values are dict references. -/
def isRefPair : HVal → HVal → Option (Nat × Nat)
  | HVal.ref aD, HVal.ref aCsub => some (aD, aCsub)
  | _, _ => none

theorem isRefPair_eq_some {v cv : HVal} {aD aCsub : Nat}
    (h : isRefPair v cv = some (aD, aCsub)) :
    v = HVal.ref aD ∧ cv = HVal.ref aCsub := by
  rcases v <;> rcases cv <;> simp_all [isRefPair]

/-- The body of the `elif` chain of `merge_config` for a key present in
`current`: only when both the default value and the current value are dicts
does the merge recurse (`merge_config(value, current[key])`); any other
combination leaves the state untouched and moves on. -/
def mergeEntry (recurse : Heap → List (String × HVal) → Nat → Option Heap)
    (h : Heap) (v cv : HVal) (rest : List (String × HVal)) (aC : Nat) :
    Option Heap :=
  match isRefPair v cv with
  | some (aD, aCsub) =>
    match alookup h aD with
    | none => none
    | some dItems =>
      match recurse h dItems aCsub with
      | none => none
      | some h2 => recurse h2 rest aC
  | none => recurse h rest aC

/-- The loop of `merge_config(default, current)` over the (snapshot of the)
bindings `items` of the default dict, with `current` the dict object at
address `aC`: a key absent from the current dict is appended — storing the
default's value, references included — and a key present defers to
`mergeEntry`. -/
def mergeItems : Nat → Heap → List (String × HVal) → Nat → Option Heap
  | 0, _, _, _ => none
  | _ + 1, h, [], _ => some h
  | fuel + 1, h, (k, v) :: rest, aC =>
    match alookup h aC with
    | none => none
    | some cd =>
      match alookup cd k with
      | none => mergeItems fuel (setKey h aC (cd ++ [(k, v)])) rest aC
      | some cv => mergeEntry (mergeItems fuel) h v cv rest aC

/-- `merge_config(default, current)` on the heap: iterate the bindings of
the dict object at `aD` against the dict object at `aC`. -/
def mergeH (fuel : Nat) (h : Heap) (aD aC : Nat) : Option Heap :=
  match alookup h aD with
  | none => none
  | some dItems => mergeItems fuel h dItems aC

/-- Every dict object on the heap has distinct keys (Python invariant). -/
def HWF (h : Heap) : Prop := ∀ p, p ∈ h → nodupKeys p.2 = true

theorem hGet_nodup {h : Heap} {a : Nat} {items : List (String × HVal)}
    (hwf : HWF h) (ha : alookup h a = some items) : nodupKeys items = true :=
  hwf (a, items) (mem_of_alookup ha)

theorem mem_setKey {κ α : Type} [DecidableEq κ] {l : List (κ × α)} {key : κ}
    {w : α} {p : κ × α} (hp : p ∈ setKey l key w) : p ∈ l ∨ p = (key, w) := by
  induction l with
  | nil => simp [setKey] at hp
  | cons q rest ih =>
    obtain ⟨k₁, v₁⟩ := q
    by_cases h₁ : k₁ = key
    · subst h₁
      simp [setKey] at hp
      rcases hp with rfl | hp
      · exact Or.inr rfl
      · exact Or.inl (List.mem_cons_of_mem _ hp)
    · simp [setKey, h₁] at hp
      rcases hp with rfl | hp
      · exact Or.inl (List.mem_cons_self _ _)
      · rcases ih hp with hp | hp
        · exact Or.inl (List.mem_cons_of_mem _ hp)
        · exact Or.inr hp

theorem HWF_setKey {h : Heap} {a : Nat} {d : List (String × HVal)}
    (hwf : HWF h) (hd : nodupKeys d = true) : HWF (setKey h a d) := by
  intro p hp
  rcases mem_setKey hp with hp | hp
  · exact hwf p hp
  · rw [hp]
    exact hd

theorem nodupKeys_append_single {κ α : Type} [DecidableEq κ]
    {cd : List (κ × α)} {k : κ} (v : α) (hn : nodupKeys cd = true)
    (hk : alookup cd k = none) : nodupKeys (cd ++ [(k, v)]) = true := by
  induction cd with
  | nil => simp [nodupKeys, alookup]
  | cons q rest ih =>
    obtain ⟨k₁, v₁⟩ := q
    rw [nodupKeys] at hn
    simp at hn
    have hkk : ¬(k₁ = k) := by
      intro e
      subst e
      simp [alookup] at hk
    simp [alookup, hkk] at hk
    rw [List.cons_append, nodupKeys]
    have hk1 : ¬(k = k₁) := fun e => hkk e.symm
    have happ : alookup (rest ++ [(k, v)]) k₁ = none := by
      rw [alookup_append, hn.1]
      simp [alookup, hk1]
    simp [happ, ih hn.2 hk]

theorem alookup_append_single_ne {κ α : Type} [DecidableEq κ]
    {cd : List (κ × α)} {k k' : κ} (v : α) (hk : k ≠ k') :
    alookup (cd ++ [(k, v)]) k' = alookup cd k' := by
  rw [alookup_append]
  rcases hx : alookup cd k' <;> simp [alookup, hk]

theorem key_ne_of_nodup_head {κ α : Type} [DecidableEq κ] {k : κ} {v : α}
    {rest : List (κ × α)} (hn : nodupKeys ((k, v) :: rest) = true)
    {k' : κ} {v' : α} (hm : (k', v') ∈ rest) : k' ≠ k := by
  rw [nodupKeys] at hn
  simp at hn
  intro e
  subst e
  exact absurd (alookup_isSome_of_mem hm) (by simp [hn.1])

/-- The object graph of `current` as a finite tree: a dict address together
with the subtrees reachable from its reference-valued bindings. -/
inductive CTree where
  | node : Nat → List (String × CTree) → CTree

/-- The address of the root dict object. -/
def CTree.root : CTree → Nat
  | CTree.node a _ => a

mutual

/-- All dict addresses in the tree. -/
def CTree.addrs : CTree → List Nat
  | CTree.node a ch => a :: addrsList ch
termination_by t => sizeOf t

/-- All dict addresses in a list of labelled subtrees. -/
def addrsList : List (String × CTree) → List Nat
  | [] => []
  | (_, t) :: rest => CTree.addrs t ++ addrsList rest
termination_by l => sizeOf l

end

theorem mem_addrsList_of_mem {ch : List (String × CTree)} {k : String}
    {t : CTree} (hm : (k, t) ∈ ch) :
    ∀ x, x ∈ CTree.addrs t → x ∈ addrsList ch := by
  induction ch with
  | nil => simp at hm
  | cons q rest ih =>
    obtain ⟨k₀, t₀⟩ := q
    intro x hx
    rw [addrsList]
    rcases List.mem_cons.mp hm with e | hm'
    · cases e
      exact List.mem_append_left _ hx
    · exact List.mem_append_right _ (ih hm' x hx)

theorem child_sublist {ch : List (String × CTree)} {k : String} {t : CTree}
    (hm : (k, t) ∈ ch) : (CTree.addrs t).Sublist (addrsList ch) := by
  induction ch with
  | nil => simp at hm
  | cons q rest ih =>
    obtain ⟨k₀, t₀⟩ := q
    rw [addrsList]
    rcases List.mem_cons.mp hm with e | hm'
    · cases e
      exact List.sublist_append_left _ _
    · exact (ih hm').trans (List.sublist_append_right _ _)

theorem subtree_nodup {a : Nat} {ch : List (String × CTree)}
    (hn : (CTree.node a ch).addrs.Nodup) {k : String} {t : CTree}
    (hm : (k, t) ∈ ch) : (CTree.addrs t).Nodup := by
  rw [CTree.addrs] at hn
  exact (child_sublist hm).nodup (List.nodup_cons.mp hn).2

theorem root_not_in_child {a : Nat} {ch : List (String × CTree)}
    (hn : (CTree.node a ch).addrs.Nodup) {k : String} {t : CTree}
    (hm : (k, t) ∈ ch) : a ∉ CTree.addrs t := by
  rw [CTree.addrs] at hn
  intro hx
  exact (List.nodup_cons.mp hn).1 (mem_addrsList_of_mem hm a hx)

theorem addrsList_disjoint {ch : List (String × CTree)}
    (hn : (addrsList ch).Nodup) {k₁ k₂ : String} {t₁ t₂ : CTree}
    (h₁ : (k₁, t₁) ∈ ch) (h₂ : (k₂, t₂) ∈ ch) (hk : k₁ ≠ k₂) :
    ∀ x, x ∈ CTree.addrs t₁ → x ∉ CTree.addrs t₂ := by
  induction ch with
  | nil => simp at h₁
  | cons q rest ih =>
    obtain ⟨k₀, t₀⟩ := q
    rw [addrsList] at hn
    have hsplit := List.nodup_append.mp hn
    rcases List.mem_cons.mp h₁ with e₁ | m₁ <;> rcases List.mem_cons.mp h₂ with e₂ | m₂
    · cases e₁; cases e₂; exact absurd rfl hk
    · cases e₁
      intro x hx₁ hx₂
      exact hsplit.2.2 hx₁ (mem_addrsList_of_mem m₂ x hx₂)
    · cases e₂
      intro x hx₁ hx₂
      exact hsplit.2.2 hx₂ (mem_addrsList_of_mem m₁ x hx₁)
    · exact ih hsplit.2.1 m₁ m₂

/-- The heap `h` realizes the tree `t` exactly: the root dict exists, each
of its reference-valued bindings points at the root of a declared child
subtree, and every child subtree is realized in turn. -/
inductive ExactT (h : Heap) : CTree → Prop where
  | mk (a : Nat) (ch : List (String × CTree)) (items : List (String × HVal)) :
      alookup h a = some items →
      (∀ k b, (k, HVal.ref b) ∈ items → ∃ t, (k, t) ∈ ch ∧ CTree.root t = b) →
      (∀ k t, (k, t) ∈ ch → ExactT h t) →
      ExactT h (CTree.node a ch)

/-- Realization only depends on the heap at the tree's own addresses. -/
theorem ExactT_frame : ∀ {h : Heap} (t : CTree), ExactT h t →
    ∀ h', (∀ x, x ∈ t.addrs → alookup h' x = alookup h x) → ExactT h' t := by
  intro h t he
  induction he with
  | mk a ch items ha hrefs hch ih =>
    intro h' hfr
    refine ExactT.mk a ch items ?_ hrefs ?_
    · rw [hfr a (by rw [CTree.addrs]; exact List.mem_cons_self _ _)]
      exact ha
    · intro k t' hkt
      refine ih k t' hkt h' ?_
      intro x hx
      refine hfr x ?_
      rw [CTree.addrs]
      exact List.mem_cons_of_mem _ (mem_addrsList_of_mem hkt x hx)

/-- Invariant carried along the loop: every remaining default key that is
bound to a reference in the current dict points at an exactly-realized,
declared child. -/
def RL (h : Heap) (a : Nat) (ch : List (String × CTree))
    (items : List (String × HVal)) : Prop :=
  ∀ k v, (k, v) ∈ items → ∀ cd b, alookup h a = some cd →
    alookup cd k = some (HVal.ref b) →
    ∃ t, (k, t) ∈ ch ∧ CTree.root t = b ∧ ExactT h t

theorem ExactT_RL {h : Heap} {a : Nat} {ch : List (String × CTree)}
    (hex : ExactT h (CTree.node a ch)) (items : List (String × HVal)) :
    RL h a ch items := by
  cases hex with
  | mk _ _ items₀ ha hrefs hch =>
    intro k v _ cd b hcd hk
    rw [ha] at hcd
    cases hcd
    obtain ⟨t, hct, hroot⟩ := hrefs k b (mem_of_alookup hk)
    exact ⟨t, hct, hroot, hch k t hct⟩

theorem RL_tail {h : Heap} {a : Nat} {ch : List (String × CTree)}
    {p : String × HVal} {items : List (String × HVal)}
    (hrl : RL h a ch (p :: items)) : RL h a ch items :=
  fun k v hm => hrl k v (List.mem_cons_of_mem _ hm)

theorem nodupKeys_tail {κ α : Type} [DecidableEq κ] {k : κ} {v : α}
    {rest : List (κ × α)} (h : nodupKeys ((k, v) :: rest) = true) :
    nodupKeys rest = true := by
  rw [nodupKeys] at h
  simp at h
  exact h.2

/-- Footprint of the merge loop: a completed run writes only at the
addresses of the current tree, and preserves the heap invariant. -/
theorem mergeItems_frame :
    ∀ fuel items h a ch h',
      HWF h →
      (CTree.node a ch).addrs.Nodup →
      RL h a ch items →
      nodupKeys items = true →
      mergeItems fuel h items a = some h' →
      HWF h' ∧ ∀ x, x ∉ (CTree.node a ch).addrs → alookup h' x = alookup h x := by
  intro fuel
  induction fuel with
  | zero =>
    intro items h a ch h' _ _ _ _ hrun
    rw [mergeItems] at hrun
    cases hrun
  | succ fuel ih =>
    intro items h a ch h' hwf hnd hrl hni hrun
    cases items with
    | nil =>
      rw [mergeItems] at hrun
      cases hrun
      exact ⟨hwf, fun x _ => rfl⟩
    | cons kv rest =>
      obtain ⟨k, v⟩ := kv
      rw [mergeItems] at hrun
      split at hrun
      · cases hrun
      · rename_i cd hha
        split at hrun
        · rename_i hcd
          -- key absent from the current dict: append and continue
          have hwf₂ : HWF (setKey h a (cd ++ [(k, v)])) :=
            HWF_setKey hwf (nodupKeys_append_single v (hGet_nodup hwf hha) hcd)
          have hrl₂ : RL (setKey h a (cd ++ [(k, v)])) a ch rest := by
            intro k' v' hm cd' b hcd' hk'
            have hk'k : k' ≠ k := key_ne_of_nodup_head hni hm
            have hself : alookup (setKey h a (cd ++ [(k, v)])) a =
                some (cd ++ [(k, v)]) := alookup_setKey_self h _ hha
            rw [hself] at hcd'
            cases hcd'
            rw [alookup_append_single_ne _ (fun e => hk'k e.symm)] at hk'
            obtain ⟨t, hct, hroot, hex⟩ :=
              hrl k' v' (List.mem_cons_of_mem _ hm) cd b hha hk'
            refine ⟨t, hct, hroot, ExactT_frame t hex _ ?_⟩
            intro x hx
            have hxa : a ≠ x := by
              intro e
              subst e
              exact root_not_in_child hnd hct hx
            exact alookup_setKey_ne h _ hxa
          obtain ⟨hwf', hfr'⟩ :=
            ih rest _ a ch h' hwf₂ hnd hrl₂ (nodupKeys_tail hni) hrun
          refine ⟨hwf', fun x hx => ?_⟩
          rw [hfr' x hx]
          have hxa : a ≠ x := by
            intro e
            subst e
            exact hx (by rw [CTree.addrs]; exact List.mem_cons_self _ _)
          exact alookup_setKey_ne h _ hxa
        · rename_i cv hcd
          rw [mergeEntry] at hrun
          split at hrun
          · rename_i pr aD aCsub hpr
            -- both sides are dicts: recurse into the child, then continue
            obtain ⟨hvD, hcvC⟩ := isRefPair_eq_some hpr
            subst hvD
            subst hcvC
            split at hrun
            · cases hrun
            · rename_i dItems hhd
              split at hrun
              · cases hrun
              · rename_i h₂ hsubrun
                obtain ⟨t', hct', hroot', hex'⟩ :=
                  hrl k (HVal.ref aD) (List.mem_cons_self _ _) cd aCsub hha hcd
                rcases t' with ⟨a', ch'⟩
                rw [CTree.root] at hroot'
                subst hroot'
                have hnd' : (CTree.node a' ch').addrs.Nodup :=
                  subtree_nodup hnd hct'
                obtain ⟨hwf₂, hfr₂⟩ :=
                  ih dItems h a' ch' h₂ hwf hnd' (ExactT_RL hex' dItems)
                    (hGet_nodup hwf hhd) hsubrun
                have hsub_ne_a : a ∉ (CTree.node a' ch').addrs :=
                  root_not_in_child hnd hct'
                have hha₂ : alookup h₂ a = some cd := by
                  rw [hfr₂ a hsub_ne_a]
                  exact hha
                have hndlist : (addrsList ch).Nodup := by
                  rw [CTree.addrs] at hnd
                  exact (List.nodup_cons.mp hnd).2
                have hrl₂ : RL h₂ a ch rest := by
                  intro k' v' hm cd' b hcd' hk'
                  rw [hha₂] at hcd'
                  cases hcd'
                  obtain ⟨t₃, hct₃, hroot₃, hex₃⟩ :=
                    hrl k' v' (List.mem_cons_of_mem _ hm) cd b hha hk'
                  have hkne : k' ≠ k := key_ne_of_nodup_head hni hm
                  refine ⟨t₃, hct₃, hroot₃, ExactT_frame t₃ hex₃ h₂ ?_⟩
                  intro x hx
                  exact hfr₂ x (addrsList_disjoint hndlist hct₃ hct' hkne x hx)
                obtain ⟨hwf', hfr'⟩ :=
                  ih rest h₂ a ch h' hwf₂ hnd hrl₂ (nodupKeys_tail hni) hrun
                refine ⟨hwf', fun x hx => ?_⟩
                rw [hfr' x hx]
                refine hfr₂ x ?_
                intro hx'
                refine hx ?_
                rw [CTree.addrs]
                exact List.mem_cons_of_mem _ (mem_addrsList_of_mem hct' x hx')
          · -- at least one side is not a dict: the binding is left untouched
            exact ih rest h a ch h' hwf hnd (RL_tail hrl) (nodupKeys_tail hni) hrun

/-- C9 (amended): a completed `merge_config(default, current)` writes only
to dict objects of `current`: when the object graph of `current` is a tree
(no shared substructure) realized at `aC`, every dict object outside that
tree — in particular the whole object graph of a disjoint `default` — is
untouched.  (The counterexample `merge_frame_cex` shows the claim fails
without this separation hypothesis.) -/
theorem merge_frame (fuel : Nat) (h h' : Heap) (aD aC : Nat) (t : CTree)
    (hwf : HWF h) (hroot : t.root = aC) (hnodup : t.addrs.Nodup)
    (hex : ExactT h t) (hrun : mergeH fuel h aD aC = some h') :
    ∀ x, x ∉ t.addrs → alookup h' x = alookup h x := by
  rcases t with ⟨a, ch⟩
  rw [CTree.root] at hroot
  rw [← hroot] at hrun
  rw [mergeH] at hrun
  split at hrun
  · cases hrun
  · rename_i dItems hhd
    intro x hx
    exact (mergeItems_frame fuel dItems h a ch h' hwf hnodup
      (ExactT_RL hex dItems) (hGet_nodup hwf hhd) hrun).2 x hx

/-- Witness for `merge_frame`: two disjoint one-dict graphs; after the
merge the default dict (address 0) is unchanged. -/
theorem merge_frame_witness :
    alookup [(0, [("x", HVal.hint 1)]), (1, [("y", HVal.hint 2), ("x", HVal.hint 1)])] 0 =
      alookup [(0, [("x", HVal.hint 1)]), (1, [("y", HVal.hint 2)])] 0 :=
  merge_frame 5 [(0, [("x", HVal.hint 1)]), (1, [("y", HVal.hint 2)])]
    [(0, [("x", HVal.hint 1)]), (1, [("y", HVal.hint 2), ("x", HVal.hint 1)])]
    0 1 (CTree.node 1 [])
    (by intro p hp; simp at hp; rcases hp with rfl | rfl <;> rfl)
    rfl
    (by simp [CTree.addrs, addrsList])
    (ExactT.mk 1 [] [("y", HVal.hint 2)] rfl
      (by intro k b hm; simp at hm)
      (by intro k t hm; simp at hm))
    rfl
    0
    (by simp [CTree.addrs, addrsList])

/-- C9 (counterexample): `merge_config` does not leave `default` untouched
for every pair of mappings.  Here `current` (address 1) is the very dict
object bound to `"a"` in `default` (address 0): the merge inserts the key
`"a"` into it, so a value of `default` has changed after the call (and
`default` has become cyclic). -/
theorem merge_frame_cex :
    mergeH 3 [(0, [("a", HVal.ref 1)]), (1, [])] 0 1 =
      some [(0, [("a", HVal.ref 1)]), (1, [("a", HVal.ref 1)])] ∧
    alookup [(0, [("a", HVal.ref 1)]), (1, [])] 0 = some [("a", HVal.ref 1)] ∧
    alookup [(0, [("a", HVal.ref 1)]), (1, [("a", HVal.ref 1)])] 1 ≠
      alookup [(0, [("a", HVal.ref 1)]), (1, [])] 1 := by
  refine ⟨rfl, rfl, ?_⟩
  decide

end HeapModel

end AutoIsys
